import Mathlib

/-!
# Verification of the Global-UFO-Sightings-Tracker cleaning pipeline

Shallow embedding of `data_processor.py` (the `clean_data` normalizer, the
`create_sqlite_db` persistence step and the `__main__` batch run) and of the
keyword filter of `app.py` (line 90-92), together with proofs settling the
frozen claims about the natural-language specification.

Strings are modelled as `List Char` (`Str`), so that every operation is a
plain structural recursion the kernel can evaluate.  Pandas parsing routines
(`pd.to_datetime`, `pd.to_numeric`) are third-party library calls; they are
modelled as parameters (`PdParsers`) for the universal theorems, and by the
concrete `modelParsers` (decimal / ISO-datetime parsing, matching the pandas
behaviour at every concrete input used below) for counterexamples.
-/

set_option maxRecDepth 4000

/-- Python strings, modelled as lists of characters. -/
abbrev Str := List Char

/-- The whitespace class of Python `str.strip` / regex `\s`
(space, tab, newline, carriage return, vertical tab, form feed). -/
def pySpace (c : Char) : Bool :=
  c == ' ' || c == '\t' || c == '\n' || c == '\r' || c == '\x0b' || c == '\x0c'

/-- ASCII lower-casing of one character (`str.lower`, restricted to the ASCII
range, which covers every concrete string appearing in this development). -/
def pyToLower (c : Char) : Char :=
  if 65 ≤ c.toNat ∧ c.toNat ≤ 90 then Char.ofNat (c.toNat + 32) else c

/-- Python `str.lower`. -/
def pyLower (s : Str) : Str := s.map pyToLower

/-- Python `str.strip`: drop whitespace from both ends. -/
def pyStrip (s : Str) : Str :=
  List.rdropWhile pySpace (List.dropWhile pySpace s)

/-- Regex `\w` (ASCII): letters, digits, underscore. -/
def isWordChar (c : Char) : Bool := c.isAlphanum || c == '_'

/-- The character class kept by `re.sub(r'[^\w\s.,!?]', '', ·)` at
`data_processor.py` line 41. -/
def allowedChar (c : Char) : Bool :=
  isWordChar c || pySpace c || c == '.' || c == ',' || c == '!' || c == '?'

/-- `re.sub(r'[^\w\s.,!?]', '', s)`: remove every disallowed character. -/
def reSub (s : Str) : Str := s.filter allowedChar

/-- `dropPre pat s = some rest` iff `pat` is a prefix of `s`, with `rest`
the remaining characters. -/
def dropPre : Str → Str → Option Str
  | [], s => some s
  | _ :: _, [] => none
  | p :: ps, c :: cs => if p == c then dropPre ps cs else none

/-- Fuelled worker for `replaceAll`; the fuel (initially the length of the
string, enough since every step consumes at least one character for the
non-empty patterns used) makes the recursion structural. -/
def replGo (pat rep : Str) : Nat → Str → Str
  | 0, s => s
  | _ + 1, [] => []
  | n + 1, c :: cs =>
    match dropPre pat (c :: cs) with
    | some rest => rep ++ replGo pat rep n rest
    | none => c :: replGo pat rep n cs

/-- Python `str.replace pat rep` (left-to-right, non-overlapping). -/
def replaceAll (pat rep s : Str) : Str := replGo pat rep s.length s

/-- The description-cleaning chain of `data_processor.py` lines 41-42:
`fillna('')`, strip, `re.sub(r'[^\w\s.,!?]', '', ·)`, then the three
`.str.replace` calls `'&#44'→','`, `'&quot;'→'"'`, `'&#33;'→'!'`. -/
def descClean (d : Option Str) : Str :=
  let d1 := reSub (pyStrip (d.getD []))
  replaceAll ('&' :: '#' :: '3' :: '3' :: ';' :: []) ('!' :: [])
    (replaceAll ('&' :: 'q' :: 'u' :: 'o' :: 't' :: ';' :: []) ('"' :: [])
      (replaceAll ('&' :: '#' :: '4' :: '4' :: []) (',' :: []) d1))

/-- The shape-cleaning chain of `data_processor.py` line 38:
`fillna('unknown').str.lower().str.strip()`. -/
def shapeClean (s : Option Str) : Str :=
  pyStrip (pyLower (s.getD ('u' :: 'n' :: 'k' :: 'n' :: 'o' :: 'w' :: 'n' :: [])))

/-- A cell of the raw DataFrame: missing (`NaN`/`NaT`/`None`), a string,
a numeric value, or an already-typed datetime value. -/
inductive Cell where
  | null : Cell
  | str (s : Str) : Cell
  | num (q : ℚ) : Cell
  | dt (t : ℤ) : Cell
deriving DecidableEq

/-- A raw row as `clean_data` sees it after the header canonicalization /
renaming of lines 19-20 (`duration_seconds→duration_s`, `comments→description`,
`date_posted→date_posted_str`).  `date_posted_str = none` models the column
being absent from the input (the membership test of line 48). -/
structure RawRow where
  datetime : Cell
  city : Option Str
  state : Option Str
  country : Option Str
  shape : Option Str
  duration_s : Cell
  description : Option Str
  latitude : Cell
  longitude : Cell
  date_posted_str : Option Cell
deriving DecidableEq

/-- A cleaned record: the columns selected at lines 57-58. -/
structure Record where
  datetime : ℤ
  date : ℤ
  city : Option Str
  state : Option Str
  country : Option Str
  shape : Str
  duration_s : ℚ
  description : Str
  latitude : ℚ
  longitude : ℚ
  date_posted : Option ℤ
deriving DecidableEq

/-- The pandas parsing routines used by `clean_data`, kept abstract:
`toDatetime` models `pd.to_datetime(·, errors='coerce')` (`none` = `NaT`),
`toNumeric` models `pd.to_numeric(·, errors='coerce')` (`none` = `NaN`), and
`normalize` models `Series.dt.normalize` (truncation to the calendar day). -/
structure PdParsers where
  toDatetime : Cell → Option ℤ
  toNumeric : Cell → Option ℚ
  normalize : ℤ → ℤ

/-- The per-row part of `clean_data` (lines 24-51 and the column selection of
lines 57-58); each transformation is row-independent, so the vectorized
column operations of the source compose into this single row function.
`none` means the row is dropped (failed datetime parse, failed coordinate
parse, or coordinate out of range). -/
def cleanRow (P : PdParsers) (row : RawRow) : Option Record :=
  match P.toDatetime row.datetime with
  | none => none
  | some ts =>
    match P.toNumeric row.latitude, P.toNumeric row.longitude with
    | some lat, some lon =>
      if -90 ≤ lat ∧ lat ≤ 90 ∧ -180 ≤ lon ∧ lon ≤ 180 then
        some
          { datetime := ts
            date := P.normalize ts
            city := row.city
            state := row.state
            country := row.country
            shape := shapeClean row.shape
            duration_s := (P.toNumeric row.duration_s).getD 0
            description := descClean row.description
            latitude := lat
            longitude := lon
            date_posted :=
              match row.date_posted_str with
              | none => none
              | some c => P.toDatetime c }
      else none
    | _, _ => none

/-- The deduplication key of `drop_duplicates(subset=[...])` at line 54. -/
def dedupKey (r : Record) : ℤ × ℚ × ℚ × Str :=
  (r.datetime, r.latitude, r.longitude, r.description)

/-- `drop_duplicates` (default `keep='first'`): keep a record iff its key was
not seen earlier. -/
def dedupBy (seen : List (ℤ × ℚ × ℚ × Str)) : List Record → List Record
  | [] => []
  | r :: rs =>
    if dedupKey r ∈ seen then dedupBy seen rs
    else r :: dedupBy (dedupKey r :: seen) rs

/-- `clean_data` (lines 5-61): the per-row pipeline followed by the
deduplication of line 54.  (The `print` of line 60, which reads the global
`raw_df`, is modelled separately by `clean_dataCall`.) -/
def clean_data (P : PdParsers) (df : List RawRow) : List Record :=
  dedupBy [] (df.filterMap (cleanRow P))

/-- Re-feeding a cleaned record to `clean_data` as a raw row: the cleaned
DataFrame has columns `datetime, date, city, state, country, shape,
duration_s, description, latitude, longitude, date_posted`; on the second
pass the rename of line 20 maps `date_posted` to `date_posted_str` and the
`date` column is overwritten at line 25. -/
def recordToRaw (r : Record) : RawRow :=
  { datetime := Cell.dt r.datetime
    city := r.city
    state := r.state
    country := r.country
    shape := some r.shape
    duration_s := Cell.num r.duration_s
    description := some r.description
    latitude := Cell.num r.latitude
    longitude := Cell.num r.longitude
    date_posted_str :=
      some (match r.date_posted with
        | none => Cell.null
        | some t => Cell.dt t) }

/-- Digit-string accumulator for `digitsVal`. -/
def digitsValGo (acc : ℕ) : Str → Option ℕ
  | [] => some acc
  | c :: cs => if c.isDigit then digitsValGo (acc * 10 + (c.toNat - 48)) cs else none

/-- Value of a non-empty all-digit string. -/
def digitsVal (s : Str) : Option ℕ :=
  if s = [] then none else digitsValGo 0 s

/-- Unsigned decimal parse (`digits` or `digits.digits`). -/
def parseUnsigned (s : Str) : Option ℚ :=
  match s.splitOn '.' with
  | [ip] => (digitsVal ip).map (fun n => mkRat n 1)
  | [ip, fp] =>
    match digitsVal ip, digitsVal fp with
    | some n, some f => some (mkRat (n * 10 ^ fp.length + f) (10 ^ fp.length))
    | _, _ => none
  | _ => none

/-- Signed decimal parse: `pd.to_numeric` on the plain decimal strings used
in the concrete inputs below (pandas parses all of them to these values). -/
def parseDecimal (s : Str) : Option ℚ :=
  match s with
  | '-' :: rest => (parseUnsigned rest).map (fun q => -q)
  | _ => parseUnsigned s

/-- `pd.to_datetime` on strings, modelled for the fixed format
`YYYY-MM-DD HH:MM` (the only string format used in the concrete inputs
below; pandas parses it to the same calendar point).  The result is encoded
as `y*10^8 + m*10^6 + d*10^4 + h*10^2 + min`, so truncation to the calendar
day (`Series.dt.normalize`) is truncation of the last four decimal digits. -/
def dtParse (s : Str) : Option ℤ :=
  match s with
  | y1 :: y2 :: y3 :: y4 :: '-' :: m1 :: m2 :: '-' :: d1 :: d2 :: ' ' ::
      h1 :: h2 :: ':' :: n1 :: n2 :: [] =>
    match digitsVal (y1 :: y2 :: y3 :: y4 :: []), digitsVal (m1 :: m2 :: []),
        digitsVal (d1 :: d2 :: []), digitsVal (h1 :: h2 :: []),
        digitsVal (n1 :: n2 :: []) with
    | some y, some m, some d, some h, some n =>
      some (((y : ℤ) * 100000000) + (m * 1000000) + (d * 10000) + (h * 100) + n)
    | _, _, _, _, _ => none
  | _ => none

/-- Concrete instantiation of the pandas routines, matching pandas behaviour
at every concrete cell appearing in this file: an already-typed datetime
(resp. numeric) cell passes through unchanged, a missing cell stays missing
(`NaT`/`NaN`), and strings are parsed by `dtParse` / `parseDecimal`. -/
def modelParsers : PdParsers :=
  { toDatetime := fun c =>
      match c with
      | Cell.dt t => some t
      | Cell.str s => dtParse s
      | Cell.null => none
      | Cell.num _ => none
    toNumeric := fun c =>
      match c with
      | Cell.num q => some q
      | Cell.str s => parseDecimal s
      | Cell.null => none
      | Cell.dt _ => none
    normalize := fun t => t / 10000 * 10000 }

/-- A regex token of the fragment modelled from Python `re`: a literal
character, or a starred literal (`c*`). -/
inductive Tok where
  | lit (c : Char)
  | star (c : Char)
deriving DecidableEq

/-- `true` iff the character has no special regex meaning.  Braces are
conservatively treated as non-plain as well (they can start a quantifier). -/
def isPlain (c : Char) : Bool :=
  !(c == '*' || c == '+' || c == '?' || c == '.' || c == '(' || c == ')' ||
    c == '[' || c == ']' || c == '|' || c == '^' || c == '$' || c == '\\' ||
    c.toNat == 123 || c.toNat == 125)

/-- Python `re.compile`, modelled for the fragment reachable in this
development: sequences of plain literal characters, each optionally followed
by `*`.  Patterns outside the fragment (a leading or doubled `*`, which is a
`re.error` in Python, or any other metacharacter, which is outside the
model) compile to `none`; no theorem below touches the latter. -/
def compilePat : Str → Option (List Tok)
  | [] => some []
  | [c] => if isPlain c then some [Tok.lit c] else none
  | c :: d :: rest =>
    if isPlain c then
      if d == '*' then (compilePat rest).map (fun ts => Tok.star c :: ts)
      else (compilePat (d :: rest)).map (fun ts => Tok.lit c :: ts)
    else none

/-- Case-insensitive character comparison (`re.IGNORECASE`, from
`case=False`). -/
def eqIC (a b : Char) : Bool := pyToLower a == pyToLower b

/-- All remainders of `s` after consuming a (possibly empty) leading run of
characters equal (case-insensitively) to `c`: the candidate continuations of
a `c*` token. -/
def cRunSuffixes (c : Char) : Str → List Str
  | [] => [[]]
  | d :: ds => (d :: ds) :: (if eqIC c d then cRunSuffixes c ds else [])

/-- Token-list matching anchored at the start of the string (a match may end
before the string does, as for `re.search`). -/
def tokMatch : List Tok → Str → Bool
  | [], _ => true
  | Tok.lit _ :: _, [] => false
  | Tok.lit c :: ts, d :: ds => eqIC c d && tokMatch ts ds
  | Tok.star c :: ts, ds => (cRunSuffixes c ds).any (fun s => tokMatch ts s)

/-- Python `re.search`: try a match at every position. -/
def reSearch (ts : List Tok) : Str → Bool
  | [] => tokMatch ts []
  | d :: ds => tokMatch ts (d :: ds) || reSearch ts ds

/-- A row of the dashboard's DataFrame (`app.py`); `description = none`
models a SQL `NULL` read back from the store. -/
structure AppRecord where
  year : ℤ
  city : Option Str
  state : Option Str
  country : Option Str
  shape : Option Str
  description : Option Str
  latitude : ℚ
  longitude : ℚ
deriving DecidableEq

/-- The keyword filter of `app.py` lines 90-92:
`if keyword: filtered_df = filtered_df[filtered_df['description']
.str.contains(keyword, case=False, na=False)]`.  `str.contains` treats the
keyword as a regular expression (`regex=True` is the pandas default);
`na=False` makes a missing description a non-match; an invalid pattern
raises `re.error`, modelled as `Except.error`. -/
def keywordFilter (kw : Str) (df : List AppRecord) : Except Unit (List AppRecord) :=
  if kw = [] then Except.ok df
  else
    match compilePat kw with
    | none => Except.error ()
    | some ts =>
      Except.ok (df.filter (fun r =>
        match r.description with
        | none => false
        | some d => reSearch ts d))

/-- Case-insensitive prefix test (spec side). -/
def prefixMatchCI : Str → Str → Bool
  | [], _ => true
  | _ :: _, [] => false
  | a :: as, b :: bs => eqIC a b && prefixMatchCI as bs

/-- Case-insensitive literal-substring test: this is the definition written
from the spec's words ("case-insensitive substring match against
description"), to be compared with the regex behaviour of the code. -/
def isSubstringCI (needle : Str) : Str → Bool
  | [] => prefixMatchCI needle []
  | d :: ds => prefixMatchCI needle (d :: ds) || isSubstringCI needle ds

deriving instance DecidableEq for Except

/-- Python failure modes modelled in this file. -/
inductive PyFail where
  | nameError
deriving DecidableEq

/-- The full call of `clean_data`, including the report of line 60: the
f-string reads the name `raw_df` from the module globals, so when that
global is absent a `NameError` is raised — after the transformations of
lines 19-58 have already been computed, and instead of returning them. -/
def clean_dataCall (P : PdParsers) (globalRaw : Option (List RawRow))
    (df : List RawRow) : Except PyFail (List Record) :=
  let cleaned := clean_data P df
  match globalRaw with
  | none => Except.error PyFail.nameError
  | some _ => Except.ok cleaned

/-- The files the batch run can touch: the cleaned CSV export and the
`sightings` table of the SQLite store. -/
structure FsState where
  cleanedCsv : Option (List Record)
  sightings : Option (List Record)
deriving DecidableEq

/-- Outcome of one batch run of `data_processor.py` (`__main__`): every
exception is caught at lines 94-97, so the run always terminates, reporting
either success, the file-not-found message, or the generic error message. -/
inductive RunOutcome where
  | success
  | fileNotFound
  | otherError
deriving DecidableEq

/-- The failure points of a batch run, given as inputs: a missing input CSV
(`rawInput = none`), a failing `to_csv`, or a failing `create_sqlite_db`.
A failing write is modelled as leaving the target unchanged (the most
favourable reading for the no-partial-output claim). -/
structure RunEnv where
  rawInput : Option (List RawRow)
  csvWriteOk : Bool
  dbWriteOk : Bool

/-- The `__main__` block of `data_processor.py` (lines 73-97): load, clean
(with the global `raw_df` bound at line 80), export the cleaned CSV at line
87, then replace the `sightings` table at line 91; all exceptions caught. -/
def mainRun (P : PdParsers) (env : RunEnv) (fs : FsState) : FsState × RunOutcome :=
  match env.rawInput with
  | none => (fs, RunOutcome.fileNotFound)
  | some raw =>
    match clean_dataCall P (some raw) raw with
    | Except.error _ => (fs, RunOutcome.otherError)
    | Except.ok cleaned =>
      if env.csvWriteOk then
        let fs1 : FsState := { fs with cleanedCsv := some cleaned }
        if env.dbWriteOk then
          ({ fs1 with sightings := some cleaned }, RunOutcome.success)
        else (fs1, RunOutcome.otherError)
      else (fs, RunOutcome.otherError)

/-! ## Character-level lemmas -/

theorem toNat_ofNat_lt (n : Nat) (h : n < 55296) : (Char.ofNat n).toNat = n := by
  rw [Char.ofNat]
  rw [dif_pos (Or.inl h)]
  rfl

theorem pyToLower_toNat_of_upper {c : Char} (h : 65 ≤ c.toNat ∧ c.toNat ≤ 90) :
    (pyToLower c).toNat = c.toNat + 32 := by
  rw [pyToLower, if_pos h]
  exact toNat_ofNat_lt _ (by omega)

theorem pyToLower_idem (c : Char) : pyToLower (pyToLower c) = pyToLower c := by
  by_cases h : 65 ≤ c.toNat ∧ c.toNat ≤ 90
  · have ht : (pyToLower c).toNat = c.toNat + 32 := pyToLower_toNat_of_upper h
    have hno : ¬(65 ≤ (pyToLower c).toNat ∧ (pyToLower c).toNat ≤ 90) := by
      rw [ht]; omega
    show (if 65 ≤ (pyToLower c).toNat ∧ (pyToLower c).toNat ≤ 90 then
        Char.ofNat ((pyToLower c).toNat + 32) else pyToLower c) = pyToLower c
    rw [if_neg hno]
  · have hc : pyToLower c = c := by rw [pyToLower, if_neg h]
    rw [hc]
    exact hc

theorem char_ne_of_toNat_ne {a b : Char} (h : a.toNat ≠ b.toNat) : (a == b) = false := by
  rw [beq_eq_false_iff_ne]
  intro hab
  exact h (congrArg Char.toNat hab)

theorem pySpace_false_of_range {c : Char} (h1 : 33 ≤ c.toNat) : pySpace c = false := by
  rw [pySpace]
  rw [char_ne_of_toNat_ne (a := c) (b := ' ')
    (by have hv : (' ' : Char).toNat = 32 := rfl; rw [hv]; omega)]
  rw [char_ne_of_toNat_ne (a := c) (b := '\t')
    (by have hv : ('\t' : Char).toNat = 9 := rfl; rw [hv]; omega)]
  rw [char_ne_of_toNat_ne (a := c) (b := '\n')
    (by have hv : ('\n' : Char).toNat = 10 := rfl; rw [hv]; omega)]
  rw [char_ne_of_toNat_ne (a := c) (b := '\r')
    (by have hv : ('\r' : Char).toNat = 13 := rfl; rw [hv]; omega)]
  rw [char_ne_of_toNat_ne (a := c) (b := '\x0b')
    (by have hv : ('\x0b' : Char).toNat = 11 := rfl; rw [hv]; omega)]
  rw [char_ne_of_toNat_ne (a := c) (b := '\x0c')
    (by have hv : ('\x0c' : Char).toNat = 12 := rfl; rw [hv]; omega)]
  rfl

theorem pySpace_pyToLower (c : Char) : pySpace (pyToLower c) = pySpace c := by
  by_cases h : 65 ≤ c.toNat ∧ c.toNat ≤ 90
  · have ht : (pyToLower c).toNat = c.toNat + 32 := pyToLower_toNat_of_upper h
    rw [pySpace_false_of_range (c := pyToLower c) (by rw [ht]; omega)]
    rw [pySpace_false_of_range (c := c) (by omega)]
  · have hc : pyToLower c = c := by rw [pyToLower, if_neg h]
    rw [hc]

/-! ## String-level lemmas -/

theorem pyLower_pyLower (s : Str) : pyLower (pyLower s) = pyLower s := by
  simp only [pyLower, List.map_map]
  exact List.map_congr_left (fun a _ => pyToLower_idem a)

theorem dropWhile_pySpace_pyLower (s : Str) :
    List.dropWhile pySpace (pyLower s) = pyLower (List.dropWhile pySpace s) := by
  simp only [pyLower]
  rw [List.dropWhile_map]
  have hps : pySpace ∘ pyToLower = pySpace := funext pySpace_pyToLower
  rw [hps]

theorem rdropWhile_pySpace_pyLower (s : Str) :
    List.rdropWhile pySpace (pyLower s) = pyLower (List.rdropWhile pySpace s) := by
  simp only [List.rdropWhile, pyLower]
  rw [← List.map_reverse, List.dropWhile_map]
  have hps : pySpace ∘ pyToLower = pySpace := funext pySpace_pyToLower
  rw [hps, List.map_reverse]

theorem pyStrip_pyLower (s : Str) : pyStrip (pyLower s) = pyLower (pyStrip s) := by
  rw [pyStrip, dropWhile_pySpace_pyLower, rdropWhile_pySpace_pyLower, pyStrip]

theorem dropWhile_eq_self_of_isPre {p : Char → Bool} {l1 l2 : Str}
    (hpre : l1 <+: l2) (h : List.dropWhile p l2 = l2) : List.dropWhile p l1 = l1 := by
  cases l1 with
  | nil => rfl
  | cons a as =>
    obtain ⟨u, hu⟩ := hpre
    have hpa : p a = false := by
      rw [← hu] at h
      by_cases hp : p a
      · rw [List.cons_append, List.dropWhile_cons_of_pos hp] at h
        have hlen := congrArg List.length h
        have hle := (List.dropWhile_suffix p (l := as ++ u)).length_le
        simp only [List.length_cons] at hlen
        omega
      · simpa using hp
    rw [List.dropWhile_cons, if_neg (by simp [hpa])]

theorem dropWhile_pyStrip (s : Str) :
    List.dropWhile pySpace (pyStrip s) = pyStrip s := by
  refine dropWhile_eq_self_of_isPre ?_ (List.dropWhile_idempotent pySpace s)
  exact List.rdropWhile_prefix pySpace (List.dropWhile pySpace s)

theorem pyStrip_idem (s : Str) : pyStrip (pyStrip s) = pyStrip s := by
  show List.rdropWhile pySpace (List.dropWhile pySpace (pyStrip s)) = pyStrip s
  rw [dropWhile_pyStrip]
  exact List.rdropWhile_idempotent pySpace (List.dropWhile pySpace s)

theorem mem_pyStrip {c : Char} {s : Str} (h : c ∈ pyStrip s) : c ∈ s := by
  have h1 : c ∈ List.dropWhile pySpace s :=
    ( List.rdropWhile_prefix pySpace (List.dropWhile pySpace s)).subset h
  exact (List.dropWhile_suffix pySpace).subset h1

theorem mem_reSub_allowed {c : Char} {s : Str} (h : c ∈ reSub s) : allowedChar c = true :=
  List.of_mem_filter h

theorem reSub_eq_self {s : Str} (h : ∀ c ∈ s, allowedChar c = true) : reSub s = s :=
  List.filter_eq_self.mpr h

theorem not_amp_mem_reSub (s : Str) : '&' ∉ reSub s := by
  intro h
  have ha := mem_reSub_allowed h
  exact absurd ha (by decide)

theorem replGo_not_mem {c : Char} (ps rep : Str) :
    ∀ (n : Nat) (s : Str), c ∉ s → replGo (c :: ps) rep n s = s
  | 0, _, _ => rfl
  | _ + 1, [], _ => rfl
  | n + 1, d :: ds, h => by
    have hne : (c == d) = false := by
      rw [beq_eq_false_iff_ne]
      intro he
      exact h (he ▸ List.mem_cons_self c ds)
    have htl : c ∉ ds := fun hm => h (List.mem_cons_of_mem _ hm)
    simp only [replGo, dropPre, hne, Bool.false_eq_true, if_false]
    rw [replGo_not_mem ps rep n ds htl]

theorem replaceAll_head_not_mem {c : Char} (ps rep : Str) {s : Str} (h : c ∉ s) :
    replaceAll (c :: ps) rep s = s :=
  replGo_not_mem ps rep s.length s h

theorem descClean_eq_reSub (d : Option Str) :
    descClean d = reSub (pyStrip (d.getD [])) := by
  simp only [descClean]
  rw [replaceAll_head_not_mem _ _ (not_amp_mem_reSub _)]
  rw [replaceAll_head_not_mem _ _ (not_amp_mem_reSub _)]
  rw [replaceAll_head_not_mem _ _ (not_amp_mem_reSub _)]

theorem mem_descClean_allowed {c : Char} {d : Option Str} (h : c ∈ descClean d) :
    allowedChar c = true := by
  rw [descClean_eq_reSub] at h
  exact mem_reSub_allowed h

theorem reSub_pyStrip_descClean (d : Option Str) :
    reSub (pyStrip (descClean d)) = pyStrip (descClean d) :=
  reSub_eq_self (fun _ hc => mem_descClean_allowed (mem_pyStrip hc))

theorem descClean_descClean (d : Option Str) :
    descClean (some (descClean d)) = pyStrip (descClean d) := by
  rw [descClean_eq_reSub (some (descClean d))]
  exact reSub_pyStrip_descClean d

theorem descClean_stable (d : Option Str) :
    descClean (some (pyStrip (descClean d))) = pyStrip (descClean d) := by
  rw [descClean_eq_reSub]
  show reSub (pyStrip (pyStrip (descClean d))) = _
  rw [pyStrip_idem]
  exact reSub_pyStrip_descClean d

theorem shapeClean_stable (s : Option Str) :
    shapeClean (some (shapeClean s)) = shapeClean s := by
  show pyStrip (pyLower (shapeClean s)) = shapeClean s
  rw [shapeClean]
  rw [(pyStrip_pyLower _).symm, pyLower_pyLower, pyStrip_idem]

/-! ## Inversion of the row pipeline -/

theorem cleanRow_eq_some_iff {P : PdParsers} {row : RawRow} {r : Record} :
    cleanRow P row = some r ↔
      ∃ ts lat lon, P.toDatetime row.datetime = some ts ∧
        P.toNumeric row.latitude = some lat ∧
        P.toNumeric row.longitude = some lon ∧
        (-90 ≤ lat ∧ lat ≤ 90 ∧ -180 ≤ lon ∧ lon ≤ 180) ∧
        r = { datetime := ts
              date := P.normalize ts
              city := row.city
              state := row.state
              country := row.country
              shape := shapeClean row.shape
              duration_s := (P.toNumeric row.duration_s).getD 0
              description := descClean row.description
              latitude := lat
              longitude := lon
              date_posted :=
                match row.date_posted_str with
                | none => none
                | some c => P.toDatetime c } := by
  constructor
  · intro h
    simp only [cleanRow] at h
    split at h
    · exact absurd h (by simp)
    · rename_i ts hdt
      split at h
      · rename_i lat lon hla hlo
        split at h
        · rename_i hb
          exact ⟨ts, lat, lon, hdt, hla, hlo, hb, (Option.some.inj h).symm⟩
        · exact absurd h (by simp)
      · exact absurd h (by simp)
  · rintro ⟨ts, lat, lon, hdt, hla, hlo, hb, rfl⟩
    simp only [cleanRow, hdt, hla, hlo, if_pos hb]

/-! ## Deduplication lemmas -/

theorem mem_of_mem_dedupBy {r : Record} :
    ∀ (seen : List (ℤ × ℚ × ℚ × Str)) (l : List Record), r ∈ dedupBy seen l → r ∈ l := by
  intro seen l
  induction l generalizing seen with
  | nil => intro h; simp [dedupBy] at h
  | cons a as ih =>
    intro h
    simp only [dedupBy] at h
    by_cases hk : dedupKey a ∈ seen
    · rw [if_pos hk] at h
      exact List.mem_cons_of_mem _ (ih _ h)
    · rw [if_neg hk] at h
      rcases List.mem_cons.mp h with h1 | h2
      · exact h1 ▸ List.mem_cons_self a as
      · exact List.mem_cons_of_mem _ (ih _ h2)

theorem mem_dedupBy_iff {r : Record} :
    ∀ (seen : List (ℤ × ℚ × ℚ × Str)) (l : List Record),
      r ∈ dedupBy seen l ↔
        dedupKey r ∉ seen ∧
        ∃ l1 l2, l = l1 ++ r :: l2 ∧ ∀ x ∈ l1, dedupKey x ≠ dedupKey r := by
  intro seen l
  induction l generalizing seen with
  | nil =>
    simp only [dedupBy, List.not_mem_nil, false_iff, not_and]
    intro _
    rintro ⟨l1, l2, heq, -⟩
    exact List.not_mem_nil r (heq ▸ List.mem_append_right l1 (List.mem_cons_self r l2))
  | cons a as ih =>
    simp only [dedupBy]
    by_cases hk : dedupKey a ∈ seen
    · rw [if_pos hk, ih seen]
      constructor
      · rintro ⟨hns, l1, l2, heq, hall⟩
        refine ⟨hns, a :: l1, l2, by rw [heq, List.cons_append], ?_⟩
        intro x hx
        rcases List.mem_cons.mp hx with rfl | hx2
        · intro hxe
          rw [← hxe] at hns
          exact hns hk
        · exact hall x hx2
      · rintro ⟨hns, l1, l2, heq, hall⟩
        cases l1 with
        | nil =>
          simp only [List.nil_append] at heq
          have ha : a = r := (List.cons.injEq a as r l2).mp heq |>.1
          rw [ha] at hk
          exact absurd hk hns
        | cons b l1' =>
          simp only [List.cons_append] at heq
          obtain ⟨rfl, h2⟩ := (List.cons.injEq a as b (l1' ++ r :: l2)).mp heq |>.imp id id
          exact ⟨hns, l1', l2, h2, fun x hx => hall x (List.mem_cons_of_mem _ hx)⟩
    · rw [if_neg hk]
      rw [List.mem_cons, ih (dedupKey a :: seen)]
      constructor
      · rintro (rfl | ⟨hns, l1, l2, heq, hall⟩)
        · exact ⟨hk, [], as, rfl, by simp⟩
        · have hne : dedupKey r ≠ dedupKey a := fun he => hns (he ▸ List.mem_cons_self _ _)
          refine ⟨fun hm => hns (List.mem_cons_of_mem _ hm), a :: l1, l2,
            by rw [heq, List.cons_append], ?_⟩
          intro x hx
          rcases List.mem_cons.mp hx with rfl | hx2
          · exact fun he => hne he.symm
          · exact hall x hx2
      · rintro ⟨hns, l1, l2, heq, hall⟩
        cases l1 with
        | nil =>
          simp only [List.nil_append] at heq
          exact Or.inl ((List.cons.injEq a as r l2).mp heq).1.symm
        | cons b l1' =>
          simp only [List.cons_append] at heq
          obtain ⟨rfl, h2⟩ := (List.cons.injEq a as b (l1' ++ r :: l2)).mp heq |>.imp id id
          right
          have hne : dedupKey a ≠ dedupKey r := hall a (List.mem_cons_self _ _)
          refine ⟨?_, l1', l2, h2, fun x hx => hall x (List.mem_cons_of_mem _ hx)⟩
          intro hm
          rcases List.mem_cons.mp hm with he | hm2
          · exact hne he.symm
          · exact hns hm2

theorem dedupBy_nodup_keys :
    ∀ (seen : List (ℤ × ℚ × ℚ × Str)) (l : List Record),
      ((dedupBy seen l).map dedupKey).Nodup ∧
        ∀ r ∈ dedupBy seen l, dedupKey r ∉ seen := by
  intro seen l
  induction l generalizing seen with
  | nil => simp [dedupBy]
  | cons a as ih =>
    simp only [dedupBy]
    by_cases hk : dedupKey a ∈ seen
    · rw [if_pos hk]
      exact ih seen
    · rw [if_neg hk]
      obtain ⟨h1, h2⟩ := ih (dedupKey a :: seen)
      refine ⟨?_, ?_⟩
      · rw [List.map_cons, List.nodup_cons]
        refine ⟨?_, h1⟩
        intro hmem
        obtain ⟨x, hx, hxe⟩ := List.mem_map.mp hmem
        exact (h2 x hx) (hxe ▸ List.mem_cons_self _ _)
      · intro x hx
        rcases List.mem_cons.mp hx with rfl | hx2
        · exact hk
        · exact fun hm => (h2 x hx2) (List.mem_cons_of_mem _ hm)

theorem dedupBy_eq_self :
    ∀ (seen : List (ℤ × ℚ × ℚ × Str)) (l : List Record),
      (l.map dedupKey).Nodup → (∀ r ∈ l, dedupKey r ∉ seen) →
        dedupBy seen l = l := by
  intro seen l
  induction l generalizing seen with
  | nil => intro _ _; rfl
  | cons a as ih =>
    intro hnd hout
    simp only [dedupBy]
    rw [if_neg (hout a (List.mem_cons_self _ _))]
    rw [List.map_cons, List.nodup_cons] at hnd
    congr 1
    refine ih (dedupKey a :: seen) hnd.2 ?_
    intro x hx hmem
    rcases List.mem_cons.mp hmem with he | hm
    · exact hnd.1 (he ▸ List.mem_map_of_mem dedupKey hx)
    · exact hout x (List.mem_cons_of_mem _ hx) hm

theorem dedupBy_idem (l : List Record) : dedupBy [] (dedupBy [] l) = dedupBy [] l :=
  dedupBy_eq_self [] _ (dedupBy_nodup_keys [] l).1 (by simp)

theorem filterMap_eq_map_of {α β : Type} {f : α → Option β} {g : α → β} :
    ∀ {l : List α}, (∀ a ∈ l, f a = some (g a)) → l.filterMap f = l.map g := by
  intro l
  induction l with
  | nil => intro _; rfl
  | cons a as ih =>
    intro h
    rw [List.filterMap_cons, h a (List.mem_cons_self _ _), List.map_cons]
    rw [ih (fun x hx => h x (List.mem_cons_of_mem _ hx))]

theorem filterMap_eq_self_of {α : Type} {f : α → Option α} {l : List α}
    (h : ∀ a ∈ l, f a = some a) : l.filterMap f = l := by
  rw [filterMap_eq_map_of (g := id) (fun a ha => h a ha)]
  exact List.map_id l

theorem mem_clean_data {P : PdParsers} {rows : List RawRow} {r : Record}
    (h : r ∈ clean_data P rows) : ∃ row ∈ rows, cleanRow P row = some r := by
  have h1 := mem_of_mem_dedupBy _ _ h
  obtain ⟨row, hrow, he⟩ := List.mem_filterMap.mp h1
  exact ⟨row, hrow, he⟩

/-! ## Re-feeding cleaned records (second normalizer pass) -/

/-- The behaviour of the pandas routines on already-typed cells: re-parsing a
datetime value returns it unchanged, `NaT` stays `NaT`, and re-parsing a
numeric value returns it unchanged.  `modelParsers` satisfies all three. -/
structure PdFaithful (P : PdParsers) : Prop where
  dt_dt : ∀ t : ℤ, P.toDatetime (Cell.dt t) = some t
  dt_null : P.toDatetime Cell.null = none
  num_num : ∀ q : ℚ, P.toNumeric (Cell.num q) = some q

theorem modelParsers_faithful : PdFaithful modelParsers :=
  ⟨fun _ => rfl, rfl, fun _ => rfl⟩

theorem refeed_date_posted {P : PdParsers} (hP : PdFaithful P) (x : Option ℤ) :
    x = P.toDatetime (match x with | none => Cell.null | some t => Cell.dt t) := by
  cases x with
  | none => exact (hP.dt_null).symm
  | some t => exact (hP.dt_dt t).symm

theorem cleanRow_refeed {P : PdParsers} (hP : PdFaithful P) {row : RawRow} {r : Record}
    (h : cleanRow P row = some r) :
    cleanRow P (recordToRaw r) = some { r with description := pyStrip r.description } := by
  obtain ⟨ts, lat, lon, hdt, hla, hlo, hb, rfl⟩ := cleanRow_eq_some_iff.mp h
  apply cleanRow_eq_some_iff.mpr
  refine ⟨ts, lat, lon, hP.dt_dt ts, hP.num_num lat, hP.num_num lon, hb, ?_⟩
  simp only [recordToRaw, Record.mk.injEq, eq_self_iff_true, true_and, and_true]
  refine ⟨(shapeClean_stable row.shape).symm, ?_, (descClean_descClean row.description).symm, ?_⟩
  · rw [hP.num_num]
    rfl
  · exact refeed_date_posted hP _

theorem cleanRow_refeed_stable {P : PdParsers} (hP : PdFaithful P) {row : RawRow}
    {r : Record} (h : cleanRow P row = some r) :
    cleanRow P (recordToRaw { r with description := pyStrip r.description })
      = some { r with description := pyStrip r.description } := by
  have h2 := cleanRow_refeed hP h
  have h3 := cleanRow_refeed hP h2
  rw [h3]
  simp [pyStrip_idem]

theorem clean_data_stable_rows {P : PdParsers} (hP : PdFaithful P) (rows : List RawRow)
    {r : Record} (hr : r ∈ clean_data P ((clean_data P rows).map recordToRaw)) :
    cleanRow P (recordToRaw r) = some r := by
  obtain ⟨row2, hrow2, he2⟩ := mem_clean_data hr
  obtain ⟨r1, hr1, rfl⟩ := List.mem_map.mp hrow2
  obtain ⟨row1, hrow1, he1⟩ := mem_clean_data hr1
  have hre := cleanRow_refeed hP he1
  rw [hre] at he2
  obtain rfl := Option.some.inj he2
  exact cleanRow_refeed_stable hP he1

/-! ## Regex-fragment lemmas for the keyword filter -/

theorem compilePat_plain :
    ∀ (kw : Str), (∀ c ∈ kw, isPlain c = true) → compilePat kw = some (kw.map Tok.lit)
  | [], _ => rfl
  | [c], h => by
    simp [compilePat, h c (List.mem_cons_self c [])]
  | c :: d :: rest, h => by
    have hc : isPlain c = true := h c (List.mem_cons_self _ _)
    have hd : isPlain d = true := h d (List.mem_cons_of_mem _ (List.mem_cons_self _ _))
    have hds : (d == '*') = false := by
      rw [beq_eq_false_iff_ne]
      intro he
      rw [he] at hd
      exact absurd hd (by decide)
    rw [compilePat, if_pos hc, hds]
    rw [compilePat_plain (d :: rest) (fun x hx => h x (List.mem_cons_of_mem _ hx))]
    rfl

theorem tokMatch_lits : ∀ (kw s : Str), tokMatch (kw.map Tok.lit) s = prefixMatchCI kw s
  | [], _ => rfl
  | _ :: _, [] => rfl
  | c :: kw', d :: ds => by
    simp only [List.map_cons, tokMatch, prefixMatchCI]
    rw [tokMatch_lits kw' ds]

theorem reSearch_lits : ∀ (kw s : Str), reSearch (kw.map Tok.lit) s = isSubstringCI kw s
  | kw, [] => by
    simp only [reSearch, isSubstringCI]
    exact tokMatch_lits kw []
  | kw, d :: ds => by
    simp only [reSearch, isSubstringCI]
    rw [tokMatch_lits kw (d :: ds), reSearch_lits kw ds]

/-! ## Concrete inputs for scenarios, counterexamples and witnesses -/

/-- A well-formed raw row (all fields parse, coordinates in range). -/
def rowBase : RawRow :=
  { datetime := Cell.str "2000-01-01 20:00".data
    city := some "albany".data
    state := some "ny".data
    country := some "us".data
    shape := some "circle".data
    duration_s := Cell.str "30".data
    description := some "bright light".data
    latitude := Cell.str "42.65".data
    longitude := Cell.str "-73.75".data
    date_posted_str := none }

/-- The record `clean_data` produces from `rowBase`. -/
def recBase : Record :=
  { datetime := 200001012000
    date := 200001010000
    city := some "albany".data
    state := some "ny".data
    country := some "us".data
    shape := "circle".data
    duration_s := 30
    description := "bright light".data
    latitude := mkRat 4265 100
    longitude := -(mkRat 7375 100)
    date_posted := none }

example : clean_data modelParsers [rowBase] = [recBase] := by decide

def rowLatOut : RawRow := { rowBase with latitude := Cell.str "91.0".data }

def rowQuoteDesc : RawRow := { rowBase with description := some "\"hi \"".data }

def rowEntityDesc : RawRow :=
  { rowBase with description := some "Saw a light&#44; bright!".data }

def rowNegDuration : RawRow := { rowBase with duration_s := Cell.str "-5".data }

def recNegDuration : Record := { recBase with duration_s := -5 }

def rowDupCity : RawRow := { rowBase with city := some "troy".data }

def rowNoShape : RawRow := { rowBase with shape := none }

def recNoShape : Record := { recBase with shape := "unknown".data }

def rowEmptyShape : RawRow := { rowBase with shape := some [] }

/-! ## Claims -/

/-- C1: every record emitted by the normalizer has a successfully parsed
timestamp (it originates from a raw row whose timestamp parse succeeded) and
a latitude in [-90, 90] and longitude in [-180, 180]; and every raw row
whose timestamp, latitude or longitude fails to parse or is out of range is
rejected by the row pipeline, hence absent from the output. -/
theorem claim_C1 (P : PdParsers) (rows : List RawRow) :
    (∀ r ∈ clean_data P rows,
      ((-90 : ℚ) ≤ r.latitude ∧ r.latitude ≤ 90 ∧
        (-180 : ℚ) ≤ r.longitude ∧ r.longitude ≤ 180) ∧
      ∃ row ∈ rows, cleanRow P row = some r ∧ P.toDatetime row.datetime = some r.datetime) ∧
    (∀ row : RawRow,
      (P.toDatetime row.datetime = none ∨
        P.toNumeric row.latitude = none ∨
        P.toNumeric row.longitude = none ∨
        (∃ lat, P.toNumeric row.latitude = some lat ∧ (lat < -90 ∨ 90 < lat)) ∨
        (∃ lon, P.toNumeric row.longitude = some lon ∧ (lon < -180 ∨ 180 < lon))) →
      cleanRow P row = none) := by
  constructor
  · intro r hr
    obtain ⟨row, hrow, he⟩ := mem_clean_data hr
    obtain ⟨ts, lat, lon, hdt, hla, hlo, hb, hre⟩ := cleanRow_eq_some_iff.mp he
    subst hre
    exact ⟨⟨hb.1, hb.2.1, hb.2.2.1, hb.2.2.2⟩, row, hrow, he, hdt⟩
  · intro row hbad
    cases hc : cleanRow P row with
    | none => rfl
    | some r =>
      obtain ⟨ts, lat, lon, hdt, hla, hlo, hb, -⟩ := cleanRow_eq_some_iff.mp hc
      rcases hbad with h | h | h | ⟨lat2, hla2, hout⟩ | ⟨lon2, hlo2, hout⟩
      · rw [h] at hdt; exact absurd hdt (by simp)
      · rw [h] at hla; exact absurd hla (by simp)
      · rw [h] at hlo; exact absurd hlo (by simp)
      · rw [hla2] at hla
        obtain rfl := Option.some.inj hla
        rcases hout with h1 | h1 <;> [linarith [hb.1]; linarith [hb.2.1]]
      · rw [hlo2] at hlo
        obtain rfl := Option.some.inj hlo
        rcases hout with h1 | h1 <;> [linarith [hb.2.2.1]; linarith [hb.2.2.2]]

/-- C1 witness: the spec scenario `lat = "91.0"` — the row is dropped. -/
theorem claim_C1_witness : cleanRow modelParsers rowLatOut = none :=
  (claim_C1 modelParsers [rowLatOut]).2 rowLatOut
    (Or.inr (Or.inr (Or.inr (Or.inl ⟨91, by decide, Or.inr (by decide)⟩))))

/-- C2 counterexample: one pass is NOT idempotent.  The raw description
`"hi "` (with literal double quotes) sanitizes to `hi ` — removing the
closing quote exposes a trailing space — and the second pass strips that
space, changing the description field.  So re-feeding the normalizer's
output does not yield the same record set. -/
theorem claim_C2_counterexample :
    clean_data modelParsers ((clean_data modelParsers [rowQuoteDesc]).map recordToRaw)
      ≠ clean_data modelParsers [rowQuoteDesc] := by
  decide

/-- C2 amended: from the second pass on the normalizer is stable — re-feeding
the output of two passes yields it unchanged (after the second pass every
description is both fully sanitized and stripped, so no field changes and no
row drops). -/
theorem claim_C2 {P : PdParsers} (hP : PdFaithful P) (rows : List RawRow) :
    clean_data P ((clean_data P ((clean_data P rows).map recordToRaw)).map recordToRaw)
      = clean_data P ((clean_data P rows).map recordToRaw) := by
  have hstab : ∀ r ∈ clean_data P ((clean_data P rows).map recordToRaw),
      (cleanRow P ∘ recordToRaw) r = some r :=
    fun r hr => clean_data_stable_rows hP rows hr
  show dedupBy []
      (((clean_data P ((clean_data P rows).map recordToRaw)).map recordToRaw).filterMap
        (cleanRow P)) = _
  rw [List.filterMap_map]
  rw [filterMap_eq_self_of hstab]
  exact dedupBy_idem _

/-- C2 witness: the amended statement applied to the concrete counterexample
input with the concrete pandas model. -/
theorem claim_C2_witness :
    clean_data modelParsers
        ((clean_data modelParsers
          ((clean_data modelParsers [rowQuoteDesc]).map recordToRaw)).map recordToRaw)
      = clean_data modelParsers
          ((clean_data modelParsers [rowQuoteDesc]).map recordToRaw) :=
  claim_C2 modelParsers_faithful [rowQuoteDesc]

/-- C3: the code strips `&`, `#` and `;` at line 41 before the entity
replacements of line 42 can ever fire (which also match `&#44` without the
semicolon), so the spec scenario fails: the raw description
`Saw a light&#44; bright!` is normalized to `Saw a light44 bright!`,
not to `Saw a light, bright!`. -/
theorem claim_C3 :
    (clean_data modelParsers [rowEntityDesc]).map Record.description
      = ["Saw a light44 bright!".data] ∧
    descClean (some "Saw a light&#44; bright!".data) ≠ "Saw a light, bright!".data := by
  decide

/-- C4 counterexample: durations are NOT clamped to non-negative: a raw
duration of `-5` survives as `-5`, so `durationSeconds ≥ 0` fails. -/
theorem claim_C4_counterexample :
    clean_data modelParsers [rowNegDuration] = [recNegDuration] ∧
    ¬ (∀ r ∈ clean_data modelParsers [rowNegDuration], 0 ≤ r.duration_s) := by
  decide

/-- C4 amended: the normalized durationSeconds is exactly the numeric parse
of the duration field, defaulting to 0 when the parse fails or the field is
missing; there is no clamping, so a negative parsed value is kept. -/
theorem claim_C4 {P : PdParsers} {row : RawRow} {r : Record}
    (h : cleanRow P row = some r) :
    r.duration_s = (P.toNumeric row.duration_s).getD 0 := by
  obtain ⟨ts, lat, lon, -, -, -, -, rfl⟩ := cleanRow_eq_some_iff.mp h
  rfl

/-- C4 witness: the amended statement at the concrete negative-duration row. -/
theorem claim_C4_witness :
    recNegDuration.duration_s = (modelParsers.toNumeric rowNegDuration.duration_s).getD 0 :=
  @claim_C4 modelParsers rowNegDuration recNegDuration (by decide)

def appRowT : AppRecord :=
  { year := 2000
    city := none
    state := none
    country := none
    shape := none
    description := some "zzt".data
    latitude := 0
    longitude := 0 }

def appRowBright : AppRecord := { appRowT with description := some "Bright LIGHT over hills".data }

def appRowNoDesc : AppRecord := { appRowT with description := none }

/-- C5 counterexample: the keyword is passed to `str.contains` as a regular
expression, not a literal substring.  The keyword `l*t` keeps the record
whose description is `zzt` (the regex matches the bare `t`), although `zzt`
does not contain the literal substring `l*t`. -/
theorem claim_C5_counterexample :
    keywordFilter "l*t".data [appRowT] = Except.ok [appRowT] ∧
    isSubstringCI "l*t".data "zzt".data = false := by
  decide

/-- C5 amended: the keyword is interpreted as a case-insensitive regular
expression searched in the description.  For keywords built only from
non-metacharacters this coincides with case-insensitive literal substring
matching; keywords containing regex metacharacters such as `*` get regex
semantics instead (and an invalid pattern raises).  An absent or empty
keyword leaves the record set unchanged. -/
theorem claim_C5 (kw : Str) (df : List AppRecord) :
    (kw = [] → keywordFilter kw df = Except.ok df) ∧
    (kw ≠ [] → (∀ c ∈ kw, isPlain c = true) →
      keywordFilter kw df = Except.ok (df.filter (fun r =>
        match r.description with
        | none => false
        | some d => isSubstringCI kw d))) := by
  constructor
  · intro h
    subst h
    rfl
  · intro hne hp
    rw [keywordFilter, if_neg hne, compilePat_plain kw hp]
    show Except.ok (df.filter _) = _
    congr 1
    apply List.filter_congr
    intro r _
    cases r.description with
    | none => rfl
    | some d => exact reSearch_lits kw d

/-- C5 witness: the amended statement at the plain keyword `light`. -/
theorem claim_C5_witness :
    ("light".data ≠ [] ∧ (∀ c ∈ "light".data, isPlain c = true)) ∧
    keywordFilter "light".data [appRowBright, appRowT] =
      Except.ok ([appRowBright, appRowT].filter (fun r =>
        match r.description with
        | none => false
        | some d => isSubstringCI "light".data d)) :=
  ⟨⟨by decide, by decide⟩,
    (claim_C5 "light".data [appRowBright, appRowT]).2 (by decide) (by decide)⟩

/-- C6: deduplication runs last (after the whole per-row pipeline) with key
(timestamp, latitude, longitude, description); a record survives iff it is
the first record in pipeline-output order with its key (everything before it
has a different key), and the surviving keys are pairwise distinct. -/
theorem claim_C6 (P : PdParsers) (rows : List RawRow) :
    clean_data P rows = dedupBy [] (rows.filterMap (cleanRow P)) ∧
    (∀ (l : List Record) (r : Record),
      r ∈ dedupBy [] l ↔
        ∃ l1 l2, l = l1 ++ r :: l2 ∧ ∀ x ∈ l1, dedupKey x ≠ dedupKey r) ∧
    (∀ l : List Record, ((dedupBy [] l).map dedupKey).Nodup) := by
  refine ⟨rfl, ?_, fun l => (dedupBy_nodup_keys [] l).1⟩
  intro l r
  rw [mem_dedupBy_iff [] l]
  simp

/-- C6 witness: two raw rows identical on the dedup tuple but with different
cities — exactly one record survives, the first one. -/
theorem claim_C6_witness :
    clean_data modelParsers [rowBase, rowDupCity] = [recBase] ∧
    clean_data modelParsers [rowBase, rowDupCity]
      = dedupBy [] ([rowBase, rowDupCity].filterMap (cleanRow modelParsers)) :=
  ⟨by decide, (claim_C6 modelParsers [rowBase, rowDupCity]).1⟩

def fsEmpty : FsState := { cleanedCsv := none, sightings := none }

def envDbFail : RunEnv := { rawInput := some [rowBase], csvWriteOk := true, dbWriteOk := false }

def envMissing : RunEnv := { rawInput := none, csvWriteOk := true, dbWriteOk := true }

/-- C7 counterexample: when the database write fails AFTER the cleaned CSV
export succeeded, the run reports the error but the cleaned export file has
already been newly written — the run does not terminate "having written no
partial output". -/
theorem claim_C7_counterexample :
    (mainRun modelParsers envDbFail fsEmpty).2 = RunOutcome.otherError ∧
    (mainRun modelParsers envDbFail fsEmpty).1.cleanedCsv ≠ none := by
  decide

/-- C7 amended: on a missing input file nothing is written and the run
reports file-not-found; on a failure at or before the CSV export nothing is
written; a failing database write leaves the sightings table unchanged (in
the model) and the run is not a success — but the already-exported CSV
remains written. -/
theorem claim_C7 (P : PdParsers) (env : RunEnv) (fs : FsState) :
    (env.rawInput = none → mainRun P env fs = (fs, RunOutcome.fileNotFound)) ∧
    (env.csvWriteOk = false →
      (mainRun P env fs).1 = fs ∧ (mainRun P env fs).2 ≠ RunOutcome.success) ∧
    (env.dbWriteOk = false →
      (mainRun P env fs).1.sightings = fs.sightings ∧
      (mainRun P env fs).2 ≠ RunOutcome.success) := by
  rcases env with ⟨raw, csvOk, dbOk⟩
  cases raw <;> cases csvOk <;> cases dbOk <;>
    simp [mainRun, clean_dataCall]

/-- C7 witness: the amended statement at the missing-input environment. -/
theorem claim_C7_witness :
    mainRun modelParsers envMissing fsEmpty = (fsEmpty, RunOutcome.fileNotFound) :=
  (claim_C7 modelParsers envMissing fsEmpty).1 rfl

/-- C8 counterexample: an empty-string shape is NOT replaced by "unknown":
`fillna` only fills missing values, so the empty string survives as the
empty string. -/
theorem claim_C8_counterexample :
    (clean_data modelParsers [rowEmptyShape]).map Record.shape = [([] : Str)] ∧
    ¬ (∀ r ∈ clean_data modelParsers [rowEmptyShape], r.shape = "unknown".data) := by
  decide

/-- C8 amended: the shape is lower-cased and trimmed, and "unknown" is
substituted only when the field is missing (null); a present empty string
stays empty. -/
theorem claim_C8 {P : PdParsers} {row : RawRow} {r : Record}
    (h : cleanRow P row = some r) :
    (row.shape = none → r.shape = "unknown".data) ∧
    (∀ s, row.shape = some s → r.shape = pyStrip (pyLower s)) := by
  obtain ⟨ts, lat, lon, -, -, -, -, rfl⟩ := cleanRow_eq_some_iff.mp h
  constructor
  · intro hs
    show shapeClean row.shape = _
    rw [hs]
    decide
  · intro s hs
    show shapeClean row.shape = _
    rw [hs]
    rfl

/-- C8 witness: the amended statement at a shape-missing row (shape becomes
"unknown"). -/
theorem claim_C8_witness : recNoShape.shape = "unknown".data :=
  (@claim_C8 modelParsers rowNoShape recNoShape (by decide)).1 rfl

/-- C9: `clean_data`'s final report (line 60) reads the global name `raw_df`:
with the global absent the call raises `NameError` (after the cleaning
transformations were computed) instead of returning the cleaned records;
with the global present it returns exactly the cleaned records — so the
call's outcome is not a function of the DataFrame argument alone. -/
theorem claim_C9 (P : PdParsers) (df : List RawRow) :
    clean_dataCall P none df = Except.error PyFail.nameError ∧
    (∀ g, clean_dataCall P (some g) df = Except.ok (clean_data P df)) ∧
    (∀ g, clean_dataCall P none df ≠ clean_dataCall P (some g) df) :=
  ⟨rfl, fun _ => rfl, fun g h => by simp [clean_dataCall] at h⟩

/-- C10: with a non-empty keyword, whenever the keyword filter returns a
result, every surviving record has a present description: a missing (null)
description is treated as a non-match (`na=False`), never as an error. -/
theorem claim_C10 (kw : Str) (df out : List AppRecord)
    (hkw : kw ≠ []) (hok : keywordFilter kw df = Except.ok out) :
    ∀ r ∈ out, r.description ≠ none := by
  rw [keywordFilter, if_neg hkw] at hok
  cases hc : compilePat kw with
  | none =>
    rw [hc] at hok
    exact absurd hok (by simp)
  | some ts =>
    rw [hc] at hok
    obtain rfl := Except.ok.inj hok
    intro r hr
    have hmem := (List.mem_filter.mp hr).2
    intro hd
    rw [hd] at hmem
    exact absurd hmem (by simp)

/-- C10 witness: the record with the missing description is excluded, without
an error, for the concrete keyword `x`. -/
theorem claim_C10_witness :
    ("x".data ≠ [] ∧ keywordFilter "x".data [appRowNoDesc] = Except.ok []) ∧
    ∀ r ∈ ([] : List AppRecord), r.description ≠ none :=
  ⟨⟨by decide, by decide⟩, claim_C10 "x".data [appRowNoDesc] [] (by decide) (by decide)⟩
